import Mathlib

/-!
Verification of the `goroutines` concurrency toolkit.

This file gives a shallow embedding of the library's three primitives and
settles the specification's claims against it:

* the call coalescer (`queuedrunner.go`): `Coalescer.run`, `pump`, `abort`,
  `Flush`, modelled as pure functions on an explicit state, with the mutex
  tracked as a boolean and the nondeterministic `select` in the wait phase
  driven by an explicit event;
* the timed semaphore-mutex (`timedmutex.go`): the token channel is a pair
  (tokens, capacity), the nil channel of the zero value is `none`;
* the ordered parallel map (`mapping.go`, `mapI`): the collector loop is a
  state machine consuming worker results in an arbitrary arrival order, with
  the ring buffer, the `cidx`/`idx` counters and the windowed dispatch
  translated statement by statement;
* the `search` reducer (`mapping.go`), folded over the observed result
  stream.

Machine integers are modelled as `Int`/`Nat`; Go durations and timestamps are
`Int` (`time.Since(added) = now - added`, the zero `time.Time` is `0`); Go's
zero value `*new(T)` is `default` of an `Inhabited` instance; channel/waiter
identity is a `Nat` id.
-/

namespace Goroutines

/-- The error identities that appear in the library: the two search
sentinels, the coalescer timeout, the cancellation source's reported reason,
and user-function errors (identified by a code). -/
inductive GoError where
  | searchSuccess
  | searchFailure
  | runnerTimedout
  | ctxCanceled
  | user (code : Nat)
deriving DecidableEq, Repr

/-! ## Coalescer (`queuedrunner.go`) -/

/-- The mutable fields of `Coalescer[T]` guarded by `mu`: the waiter list `l`
(slot ids), `state` (`true` = running), `gen`, the cached `result` with its
`added` timestamp, and the construction-time `ttl`/`grace`. -/
structure CoalescerState (T : Type) where
  l : List Nat
  state : Bool
  gen : Nat
  result : T
  ttl : Int
  grace : Int
  added : Int
deriving Repr

/-- State produced by `Coalesce` / `CacheCoalesce`: empty waiter list,
stopped, generation 0, zero result, zero `added` timestamp. -/
def mkCoalescer (T : Type) [Inhabited T] (ttl grace : Int) : CoalescerState T :=
  { l := [], state := false, gen := 0, result := default,
    ttl := ttl, grace := grace, added := 0 }

/-- How the locked prefix of `run` ends: an immediate return of a value and
error, or falling through to the wait phase with the recorded generation. -/
inductive LockedOutcome (T : Type) where
  | ret (v : T) (e : Option GoError)
  | wait (gen : Nat)
deriving Repr

/-- Result of the locked prefix of `run`: the updated state, the outcome,
whether a pump goroutine was spawned (`go qr.pump()`), and whether the mutex
is released when the prefix ends (by `defer qr.mu.Unlock()`, by the explicit
`qr.mu.Unlock()` before the wait phase, or not at all). -/
structure RunLockedResult (T : Type) where
  st : CoalescerState T
  out : LockedOutcome T
  spawned : Bool
  unlocked : Bool
deriving Repr

/-- The locked prefix of `Coalescer.run(ctx, timeout, noCache)`, lines
115-161 of `queuedrunner.go`.  `now` is the current time, `ctxDone` whether
the caller's cancellation has already fired at the nonblocking `select`
checks, `slot` the id of the freshly allocated waiter channel `r`.
Branches in source order: fresh-cache hit, grace-window hit (running /
cancelled / spawn), miss path (running / cancelled / spawn).  On the miss
path with `state` idle and the context already done, the source returns
without any `Unlock` (no `defer` was registered on that path), so
`unlocked := false` there. -/
def runLocked {T : Type} [Inhabited T] (qr : CoalescerState T) (now : Int)
    (ctxDone : Bool) (noCache : Bool) (slot : Nat) : RunLockedResult T :=
  if noCache = false ∧ 0 < qr.ttl ∧ now - qr.added ≤ qr.ttl then
    ⟨qr, .ret qr.result none, false, true⟩
  else if noCache = false ∧ 0 < qr.grace ∧ now - qr.added ≤ qr.ttl + qr.grace then
    if qr.state then
      ⟨qr, .ret qr.result none, false, true⟩
    else if ctxDone then
      ⟨qr, .ret default (some .ctxCanceled), false, true⟩
    else
      ⟨{ qr with state := true, gen := qr.gen + 1 },
        .ret qr.result none, true, true⟩
  else
    if qr.state then
      ⟨{ qr with l := qr.l ++ [slot] }, .wait qr.gen, false, true⟩
    else if ctxDone then
      ⟨qr, .ret default (some .ctxCanceled), false, false⟩
    else
      ⟨{ qr with state := true, l := qr.l ++ [slot], gen := qr.gen + 1 },
        .wait (qr.gen + 1), true, true⟩

/-- Which branch of the wait-phase `select` fires: the waiter slot delivers
the pump's `(value, error)` pair, the context is done, or the timer fires
(for `timeout > 0`) / the `default` case is taken (for `timeout == 0`). -/
inductive WaitEvent (T : Type) where
  | delivered (v : T) (e : Option GoError)
  | ctxFired
  | timedOut
deriving Repr

/-- For a negative timeout the `select` has no timer and no `default`, so the
`timedOut` event cannot occur. -/
def WaitEventValid {T : Type} (timeout : Int) (ev : WaitEvent T) : Prop :=
  0 ≤ timeout ∨ ev ≠ WaitEvent.timedOut

/-- What the wait phase returns, plus whether it called `qr.abort(gen, r)`. -/
structure WaitResult (T : Type) where
  value : T
  error : Option GoError
  abortCalled : Bool
deriving Repr

/-- The wait phase of `run`, lines 163-197 of `queuedrunner.go`.  In each of
the three timeout regimes the `delivered` branch returns the pair via
`rvalue`, the `ctxFired` branch returns the cancellation error, and the
`timedOut` branch returns `ErrRunnerTimedout`.  Only the `timedOut` branches
call `abort`; the `ctxFired` branches return directly.  (The `timedOut` case
under a negative timeout is unreachable, see `WaitEventValid`; its value here
is immaterial.) -/
def runWait {T : Type} [Inhabited T] (timeout : Int) (ev : WaitEvent T) :
    WaitResult T :=
  if 0 < timeout then
    match ev with
    | .delivered v e => ⟨v, e, false⟩
    | .timedOut => ⟨default, some .runnerTimedout, true⟩
    | .ctxFired => ⟨default, some .ctxCanceled, false⟩
  else if timeout = 0 then
    match ev with
    | .delivered v e => ⟨v, e, false⟩
    | .ctxFired => ⟨default, some .ctxCanceled, false⟩
    | .timedOut => ⟨default, some .runnerTimedout, true⟩
  else
    match ev with
    | .delivered v e => ⟨v, e, false⟩
    | .ctxFired => ⟨default, some .ctxCanceled, false⟩
    | .timedOut => ⟨default, some .runnerTimedout, false⟩

/-- Result of `pump`: the updated coalescer state and the fan-out, i.e. for
each registered waiter slot the `(value, error)` pair sent to it before the
slot is closed. -/
structure PumpResult (T : Type) where
  st : CoalescerState T
  delivered : List (Nat × T × Option GoError)
deriving Repr

/-- The locked part of `Coalescer.pump`, lines 224-241 of `queuedrunner.go`,
after `fn` returned `(v, e)` at time `now`: cache the result if `e` is nil
and caching is enabled, send the pair to every waiter, clear the list, set
the state to stopped. -/
def pumpLocked {T : Type} (qr : CoalescerState T) (v : T) (e : Option GoError)
    (now : Int) : PumpResult T :=
  let qr1 :=
    if e = none ∧ (0 < qr.ttl ∨ 0 < qr.grace) then
      { qr with result := v, added := now }
    else qr
  ⟨{ qr1 with l := [], state := false }, qr.l.map (fun s => (s, v, e))⟩

/-- The locked part of `Coalescer.abort(gen, r)`, lines 243-271 of
`queuedrunner.go` (after `TryLock` succeeded).  Returns the updated state and
whether the slot channel was closed (i.e. the slot was removed).  Branches in
source order: generation mismatch or empty list; sole waiter; last waiter;
otherwise a linear scan records the first index `n` of `r` (`-1` if absent)
and the swap-with-last removal runs only under `n > 0`. -/
def abortLocked {T : Type} (qr : CoalescerState T) (gen : Nat) (r : Nat) :
    CoalescerState T × Bool :=
  if gen ≠ qr.gen ∨ qr.l = [] then (qr, false)
  else if qr.l.length = 1 ∧ qr.l.headI = r then ({ qr with l := [] }, true)
  else if qr.l.getLast? = some r then ({ qr with l := qr.l.dropLast }, true)
  else
    match qr.l.findIdx? (· = r) with
    | some n =>
        if 0 < n then
          ({ qr with l := (qr.l.set n ((qr.l.getLast?).getD 0)).dropLast }, true)
        else (qr, false)
    | none => (qr, false)

/-- The locked part of `Coalescer.Flush`: when caching is enabled, reset the
`added` timestamp to the zero time. -/
def flushLocked {T : Type} (qr : CoalescerState T) : CoalescerState T :=
  if 0 < qr.ttl ∨ 0 < qr.grace then { qr with added := 0 } else qr

/-! ## Timed semaphore-mutex (`timedmutex.go`) -/

/-- The buffered token channel `c chan struct{}`: its current number of
buffered tokens and its capacity. -/
structure TokenChan where
  tokens : Nat
  cap : Nat
deriving DecidableEq, Repr

/-- `TimedMutex`: `c = none` models the nil channel of the zero value. -/
structure TimedMutex where
  c : Option TokenChan
deriving DecidableEq, Repr

/-- The zero value of `TimedMutex` (its channel was never allocated). -/
def zeroTimedMutex : TimedMutex := ⟨none⟩

/-- `NewVariableTimedMutex(limit)`: coerce `limit ≤ 0` to 1, allocate the
channel with that capacity and fill it with tokens. -/
def NewVariableTimedMutex (limit : Int) : TimedMutex :=
  let p : Int := if limit ≤ 0 then 1 else limit
  ⟨some ⟨p.toNat, p.toNat⟩⟩

/-- `NewTimedMutex()` is `NewVariableTimedMutex(1)`. -/
def NewTimedMutex : TimedMutex := NewVariableTimedMutex 1

/-- Outcome of an acquisition attempt: a panic, success (with the updated
mutex), an immediate/timed failure (`false`), or a suspension waiting for a
token (negative timeout with no token available). -/
inductive LockOutcome where
  | panicked (msg : String)
  | acquired (m : TimedMutex)
  | failed
  | blocked
deriving DecidableEq, Repr

/-- `TimedMutex.internalLock(t)`, lines 37-60 of `timedmutex.go`: panic on
the nil channel; `t < 0` receives (blocking if no token is buffered);
`t == 0` is a nonblocking receive; `t > 0` races the receive against a timer
(in this sequential model a token is taken if one is buffered now, otherwise
the timer fires and the attempt fails). -/
def internalLock (l : TimedMutex) (t : Int) : LockOutcome :=
  match l.c with
  | none => .panicked "Uninitialized TimedMutex"
  | some ch =>
    if t < 0 then
      if 0 < ch.tokens then .acquired ⟨some ⟨ch.tokens - 1, ch.cap⟩⟩ else .blocked
    else if t = 0 then
      if 0 < ch.tokens then .acquired ⟨some ⟨ch.tokens - 1, ch.cap⟩⟩ else .failed
    else
      if 0 < ch.tokens then .acquired ⟨some ⟨ch.tokens - 1, ch.cap⟩⟩ else .failed

/-- `TimedMutex.LockTimeout(timeout)`. -/
def LockTimeout (l : TimedMutex) (timeout : Int) : LockOutcome :=
  internalLock l timeout

/-- `TimedMutex.Lock()`. -/
def Lock (l : TimedMutex) : LockOutcome := internalLock l (-1)

/-- `TimedMutex.TryLock()`. -/
def TryLock (l : TimedMutex) : LockOutcome := internalLock l 0

/-- `TimedMutex.LockWithContext(ctx)`, lines 68-78: panic on the nil channel,
otherwise select between the token channel and the context (`ctxFires` is
which branch fires; `failed` stands for returning `ctx.Err()`). -/
def LockWithContext (l : TimedMutex) (ctxFires : Bool) : LockOutcome :=
  match l.c with
  | none => .panicked "Uninitialized TimedMutex"
  | some ch =>
    if ctxFires then .failed
    else if 0 < ch.tokens then .acquired ⟨some ⟨ch.tokens - 1, ch.cap⟩⟩
    else .blocked

/-- Outcome of `Unlock`. -/
inductive UnlockOutcome where
  | panicked (msg : String)
  | ok (m : TimedMutex)
deriving DecidableEq, Repr

/-- `TimedMutex.Unlock()`, lines 91-100: panic on the nil channel; the
nonblocking send succeeds only while the buffer is not full, otherwise the
`default` branch panics. -/
def Unlock (l : TimedMutex) : UnlockOutcome :=
  match l.c with
  | none => .panicked "Uninitialized TimedMutex"
  | some ch =>
    if ch.tokens < ch.cap then .ok ⟨some ⟨ch.tokens + 1, ch.cap⟩⟩
    else .panicked "TimedMutex unlock of unlocked mutex"

/-- Mutex states reachable from a constructor by successful acquisitions and
releases (failed, blocked and panicking attempts do not change the state). -/
inductive MutexReach : TimedMutex → Prop where
  | init (limit : Int) : MutexReach (NewVariableTimedMutex limit)
  | lockStep {m m' : TimedMutex} (t : Int) :
      MutexReach m → internalLock m t = .acquired m' → MutexReach m'
  | ctxLockStep {m m' : TimedMutex} (ev : Bool) :
      MutexReach m → LockWithContext m ev = .acquired m' → MutexReach m'
  | unlockStep {m m' : TimedMutex} :
      MutexReach m → Unlock m = .ok m' → MutexReach m'

/-! ## Coalescer lifecycle as a transition system

Interleavings of the lock-guarded critical sections of `run`, `pump`,
`abort` and `Flush`.  `locked` tracks the mutex (a section runs only when it
is free, and leaves it as the source's unlock behaviour dictates); `pumps`
counts live pump goroutines; `fnCalls` counts invocations of the user `fn`
(each spawned pump calls `fn` exactly once). -/

/-- A coalescer together with its mutex and the live pump / `fn` counters. -/
structure CoalescerSys (T : Type) where
  c : CoalescerState T
  locked : Bool
  pumps : Nat
  fnCalls : Nat

/-- One lock-guarded critical section of the coalescer.  `opRun` is the
locked prefix of any `Run`/`TryRun`/`RunTimeout`/`RunWithContext`/`NoCache`
variant (spawning a pump when the source does, and leaving the mutex held
when the source's return path skips the unlock); `pumpFinish` is the locked
epilogue of a live pump; `opAbort` is a waiter's successful `TryLock` in
`abort`; `opFlush` is `Flush`. -/
inductive CoalescerStep {T : Type} [Inhabited T] :
    CoalescerSys T → CoalescerSys T → Prop where
  | opRun (s : CoalescerSys T) (now : Int) (ctxDone noCache : Bool) (slot : Nat)
      (h : s.locked = false) :
      CoalescerStep s
        { c := (runLocked s.c now ctxDone noCache slot).st,
          locked := !(runLocked s.c now ctxDone noCache slot).unlocked,
          pumps := s.pumps +
            (if (runLocked s.c now ctxDone noCache slot).spawned then 1 else 0),
          fnCalls := s.fnCalls +
            (if (runLocked s.c now ctxDone noCache slot).spawned then 1 else 0) }
  | pumpFinish (s : CoalescerSys T) (v : T) (e : Option GoError) (now : Int)
      (h : s.locked = false) (hp : 0 < s.pumps) :
      CoalescerStep s
        { c := (pumpLocked s.c v e now).st, locked := false,
          pumps := s.pumps - 1, fnCalls := s.fnCalls }
  | opAbort (s : CoalescerSys T) (gen : Nat) (r : Nat) (h : s.locked = false) :
      CoalescerStep s
        { c := (abortLocked s.c gen r).1, locked := false,
          pumps := s.pumps, fnCalls := s.fnCalls }
  | opFlush (s : CoalescerSys T) (h : s.locked = false) :
      CoalescerStep s
        { c := flushLocked s.c, locked := false,
          pumps := s.pumps, fnCalls := s.fnCalls }

/-- System states reachable from a freshly constructed coalescer. -/
inductive CoalescerReach {T : Type} [Inhabited T] (ttl grace : Int) :
    CoalescerSys T → Prop where
  | init : CoalescerReach ttl grace
      { c := mkCoalescer T ttl grace, locked := false, pumps := 0, fnCalls := 0 }
  | step {s s' : CoalescerSys T} :
      CoalescerReach ttl grace s → CoalescerStep s s' → CoalescerReach ttl grace s'

/-! ## Ordered parallel map (`mapping.go`, `mapI`, lines 417-513)

With a pure `fn`, no cancellation and a nil `hasError` channel (the `Map`
path), the only nondeterminism in `mapI` is the order in which worker
results cross `rn.output`.  The collector is modelled as a state machine
consuming one arrival (the original index of a completed job; its value is
determined, `fn args[n]`) per loop iteration.  An arrival is only possible
for a job that has been dispatched and has not yet been consumed
(`pending`). -/

/-- `defaultPoolSize` (`mapping.go`, line 17). -/
def defaultPoolSize : Nat := 10

/-- The pool-size rule of `mapI`/`mapUnordered`: `qlen ≤ 0` falls back to
the default of 10. -/
def poolSizeOf (qlen : Int) : Nat :=
  if qlen ≤ 0 then defaultPoolSize else qlen.toNat

/-- The collector state of `mapI`: the ring buffer `buf` (of length `P`,
holding the original indices of buffered out-of-sequence results), the next
index to emit `cidx`, the next input to dispatch `idx`, the multiset of
dispatched-but-not-yet-consumed jobs `pending`, and the indices emitted to
`results` so far, in emission order. -/
structure MapIState where
  buf : List (Option Nat)
  cidx : Nat
  idx : Nat
  pending : List Nat
  out : List Nat
deriving DecidableEq, Repr

/-- Number of occupied ring-buffer slots (termination measure for `drain`). -/
def countSome (buf : List (Option Nat)) : Nat :=
  buf.countP (fun o => o.isSome)

theorem countSome_set_none (buf : List (Option Nat)) (i m : Nat)
    (h : buf[i]? = some (some m)) :
    countSome (buf.set i none) + 1 = countSome buf := by
  induction buf generalizing i with
  | nil => simp at h
  | cons hd tl ih =>
    cases i with
    | zero =>
      simp at h
      subst h
      simp [countSome, List.countP_cons]
    | succ j =>
      simp at h
      have := ih j h
      simp [countSome, List.countP_cons] at this ⊢
      omega

/-- The drain loop of the collector (lines 482-486): while the slot
`cidx % P` holds a buffered result, emit it, clear the slot and advance
`cidx`. -/
def drain (P : Nat) (s : MapIState) : MapIState :=
  match h : s.buf[s.cidx % P]? with
  | some (some m) =>
      drain P { s with buf := s.buf.set (s.cidx % P) none,
                       cidx := s.cidx + 1,
                       out := s.out ++ [m] }
  | some none => s
  | none => s
termination_by countSome s.buf
decreasing_by
  have := countSome_set_none s.buf (s.cidx % P) m h
  omega

/-- The top-off loop of the dispatcher (lines 489-502): while inputs remain
and the in-flight window `cidx + P > idx` is open, dispatch input `idx`. -/
def topoff (P K : Nat) (s : MapIState) : MapIState :=
  if h : s.idx < K ∧ s.idx < s.cidx + P then
    topoff P K { s with pending := s.pending ++ [s.idx], idx := s.idx + 1 }
  else s
termination_by K - s.idx
decreasing_by omega

/-- Lines 473-479: the arrived result is emitted directly when its index is
the current `cidx`, otherwise stored at `buf[index mod P]`. -/
def arrivalMerge (P : Nat) (s : MapIState) (a : Nat) : MapIState :=
  if a = s.cidx then { s with cidx := s.cidx + 1, out := s.out ++ [a] }
  else { s with buf := s.buf.set (a % P) (some a) }

/-- One iteration of the collector loop (lines 461-503) on the arrival of
the result with original index `a`: `none` if `a` is not an eligible arrival
(not currently in flight).  The arrived result is merged, then the drain
loop runs, then the top-off loop. -/
def stepArrival (P K : Nat) (s : MapIState) (a : Nat) : Option MapIState :=
  if a ∈ s.pending then
    some (topoff P K (drain P
      (arrivalMerge P { s with pending := s.pending.erase a } a)))
  else none

/-- The collector's initial state (lines 424-459): a clear ring buffer of
length `P`, the first `startSize = min P K` inputs dispatched. -/
def initState (P K : Nat) : MapIState :=
  { buf := List.replicate P none, cidx := 0, idx := min P K,
    pending := List.range (min P K), out := [] }

/-- A complete run of the `mapI` collector for `K` inputs with pool size
derived from `qlen`, consuming the worker results in the order `arr` (the
loop runs exactly `K` iterations, one per result). -/
def runMapI (qlen : Int) (K : Nat) (arr : List Nat) : Option MapIState :=
  arr.foldlM (fun s a => stepArrival (poolSizeOf qlen) K s a) (initState (poolSizeOf qlen) K)

/-- The values on the `results` channel: the `i`-th emitted element is the
worker value `fn args[n]` for the `i`-th emitted original index `n`. -/
def mapIOutputs {I R : Type} [Inhabited I] (fn : I → R) (args : List I)
    (s : MapIState) : List R :=
  s.out.map (fun m => fn (args.getD m default))

/-- The mid-iteration invariant of the collector (holds when the loop is
between the arrival and the top-off): the ring buffer has length `P`; the
emitted indices are exactly `0..cidx-1` in order; dispatch never passed `K`
or the window `cidx + P`; every buffered entry sits at its own slot
`m % P`, is in the window `[cidx, idx)` and is not in flight; every
in-flight job is in the window; every window index is buffered or in
flight; and the in-flight list has no duplicates. -/
structure MapIPre (P K : Nat) (s : MapIState) : Prop where
  buflen : s.buf.length = P
  out_eq : s.out = List.range s.cidx
  cidx_le : s.cidx ≤ s.idx
  idx_le : s.idx ≤ K
  idx_win : s.idx ≤ s.cidx + P
  buf_sound : ∀ j m : Nat, s.buf[j]? = some (some m) →
    j = m % P ∧ s.cidx ≤ m ∧ m < s.idx ∧ m ∉ s.pending
  pend_sound : ∀ m ∈ s.pending, s.cidx ≤ m ∧ m < s.idx
  cover : ∀ m : Nat, s.cidx ≤ m → m < s.idx →
    s.buf[m % P]? = some (some m) ∨ m ∈ s.pending
  pend_nodup : s.pending.Nodup

/-- The rest-point invariant of the collector (holds between loop
iterations): the mid-iteration invariant, the window fully dispatched
(`idx = min K (cidx + P)`), and the drain loop at rest (the slot `cidx % P`
is empty). -/
structure MapIInv (P K : Nat) (s : MapIState) : Prop where
  pre : MapIPre P K s
  idx_eq : s.idx = min K (s.cidx + P)
  slot_empty : s.buf[s.cidx % P]? = some none

/-! ## The `search` reducer (`mapping.go`, lines 238-280) -/

/-- The consumption loop of `search` over the observed result stream `rs`
(pairs `(value, error)` read off the `results` channel), for a caller whose
context never fires: starting from the zero value and a nil error, each
result is skipped once an error has been recorded, otherwise `v, err` are
overwritten by it. -/
def searchLoop {R : Type} (zero : R) (rs : List (R × Option GoError)) :
    R × Option GoError :=
  rs.foldl (fun acc r => if acc.2 ≠ none then acc else r) (zero, none)

/-- The tail of `search` (lines 269-279): no error means the stream was
exhausted without a sentinel, so `ErrSearchFailure`; `ErrSearchSuccess` is
converted to a successful return; any other error is returned as is. -/
def searchReduce {R : Type} (zero : R) (rs : List (R × Option GoError)) :
    R × Option GoError :=
  let p := searchLoop zero rs
  match p.2 with
  | none => (p.1, some .searchFailure)
  | some e => if e = .searchSuccess then (p.1, none) else (p.1, some e)

/-- A coalescer with four registered waiters, the aborting caller's slot
(id 10) first, generation 2 (the situation of `TestAbort`/"the first"). -/
def abortFirstFixture : CoalescerState Nat :=
  { l := [10, 11, 12, 13], state := true, gen := 2, result := 0,
    ttl := 0, grace := 0, added := 0 }

/-- A running cached coalescer with one waiter (slot 7) and a previously
cached result `5` added at time `3`. -/
def pumpFixture : CoalescerState Nat :=
  { l := [7], state := true, gen := 1, result := 5,
    ttl := 10, grace := 0, added := 3 }

/-! # Theorems -/

/-! ## Helper lemmas about the coalescer's locked sections -/

theorem runLocked_preserves_cache {T : Type} [Inhabited T]
    (qr : CoalescerState T) (now : Int) (ctxDone noCache : Bool) (slot : Nat) :
    (runLocked qr now ctxDone noCache slot).st.result = qr.result ∧
    (runLocked qr now ctxDone noCache slot).st.added = qr.added := by
  unfold runLocked
  split
  · exact ⟨rfl, rfl⟩
  · split
    · split
      · exact ⟨rfl, rfl⟩
      · split
        · exact ⟨rfl, rfl⟩
        · exact ⟨rfl, rfl⟩
    · split
      · exact ⟨rfl, rfl⟩
      · split
        · exact ⟨rfl, rfl⟩
        · exact ⟨rfl, rfl⟩

theorem abortLocked_preserves {T : Type} (qr : CoalescerState T)
    (gen r : Nat) :
    (abortLocked qr gen r).1.result = qr.result ∧
    (abortLocked qr gen r).1.added = qr.added ∧
    (abortLocked qr gen r).1.state = qr.state := by
  unfold abortLocked
  split
  · exact ⟨rfl, rfl, rfl⟩
  · split
    · exact ⟨rfl, rfl, rfl⟩
    · split
      · exact ⟨rfl, rfl, rfl⟩
      · split
        · split
          · exact ⟨rfl, rfl, rfl⟩
          · exact ⟨rfl, rfl, rfl⟩
        · exact ⟨rfl, rfl, rfl⟩

theorem flushLocked_preserves_state {T : Type} (qr : CoalescerState T) :
    (flushLocked qr).state = qr.state := by
  unfold flushLocked
  split <;> rfl

theorem runLocked_spawn_state {T : Type} [Inhabited T]
    (qr : CoalescerState T) (now : Int) (ctxDone noCache : Bool) (slot : Nat) :
    ((runLocked qr now ctxDone noCache slot).spawned = true →
      qr.state = false ∧ (runLocked qr now ctxDone noCache slot).st.state = true) ∧
    ((runLocked qr now ctxDone noCache slot).spawned = false →
      (runLocked qr now ctxDone noCache slot).st.state = qr.state) := by
  unfold runLocked
  split
  · simp
  · split
    · cases hs : qr.state <;> cases hc : ctxDone <;> simp [hs, hc]
    · cases hs : qr.state <;> cases hc : ctxDone <;> simp [hs, hc]

/-- The single-flight inductive invariant: the live-pump count is 1 exactly
in the running state. -/
def coalescerInv {T : Type} (s : CoalescerSys T) : Prop :=
  s.pumps = if s.c.state then 1 else 0

theorem coalescerStep_inv {T : Type} [Inhabited T] {s s' : CoalescerSys T}
    (hstep : CoalescerStep s s') (hinv : coalescerInv s) : coalescerInv s' := by
  unfold coalescerInv at hinv ⊢
  cases hstep with
  | opRun now ctxDone noCache slot h =>
    have hspawn := runLocked_spawn_state s.c now ctxDone noCache slot
    by_cases hsp : (runLocked s.c now ctxDone noCache slot).spawned
    · obtain ⟨h1, h2⟩ := hspawn.1 hsp
      simp [hsp, h2, h1] at hinv ⊢
      omega
    · have h2 := hspawn.2 (by simpa using hsp)
      simp [hsp, h2]
      exact hinv
  | pumpFinish v e now h hp =>
    have hrun : s.c.state = true := by
      by_contra hc
      simp [Bool.not_eq_true] at hc
      rw [hc] at hinv
      simp at hinv
      omega
    rw [hrun] at hinv
    simp [pumpLocked, hinv]
  | opAbort gen r h =>
    have := (abortLocked_preserves s.c gen r).2.2
    simp [this]
    exact hinv
  | opFlush h =>
    have := flushLocked_preserves_state s.c
    simp [this]
    exact hinv

theorem coalescerReach_inv {T : Type} [Inhabited T] {ttl grace : Int}
    {s : CoalescerSys T} (h : CoalescerReach ttl grace s) : coalescerInv s := by
  induction h with
  | init => rfl
  | step _ hstep ih => exact coalescerStep_inv hstep ih

/-! ## Helper lemmas about the `search` fold -/

theorem searchLoop_stuck {R : Type} (rs : List (R × Option GoError))
    (acc : R × Option GoError) (h : acc.2 ≠ none) :
    rs.foldl (fun acc r => if acc.2 ≠ none then acc else r) acc = acc := by
  induction rs with
  | nil => rfl
  | cons hd tl ih => simp only [List.foldl_cons, if_pos h]; exact ih

theorem searchLoop_find {R : Type} (zero : R) (rs : List (R × Option GoError))
    (x : R × Option GoError)
    (h : rs.find? (fun r => r.2.isSome) = some x) : searchLoop zero rs = x := by
  induction rs generalizing zero with
  | nil => simp at h
  | cons hd tl ih =>
    cases hh : hd.2.isSome with
    | true =>
      have hdx : hd = x := by
        have h2 := h
        rw [List.find?_cons] at h2
        simp only [hh] at h2
        simpa using h2
      subst hdx
      unfold searchLoop
      rw [List.foldl_cons, if_neg (by simp)]
      exact searchLoop_stuck tl hd (Option.isSome_iff_ne_none.mp hh)
    | false =>
      have h2 := h
      rw [List.find?_cons] at h2
      simp only [hh] at h2
      have hdnone : hd.2 = none := Option.not_isSome_iff_eq_none.mp (by simp [hh])
      unfold searchLoop
      rw [List.foldl_cons, if_neg (by simp)]
      have : hd = (hd.1, (none : Option GoError)) := by
        cases hd; simp_all
      rw [this]
      exact ih hd.1 h2

theorem searchLoop_all_none {R : Type} (zero : R)
    (rs : List (R × Option GoError))
    (h : rs.find? (fun r => r.2.isSome) = none) :
    (searchLoop zero rs).2 = none := by
  induction rs generalizing zero with
  | nil => rfl
  | cons hd tl ih =>
    cases hh : hd.2.isSome with
    | true =>
      rw [List.find?_cons] at h
      simp [hh] at h
    | false =>
      have h2 := h
      rw [List.find?_cons] at h2
      simp only [hh] at h2
      have hdnone : hd.2 = none := Option.not_isSome_iff_eq_none.mp (by simp [hh])
      unfold searchLoop
      rw [List.foldl_cons, if_neg (by simp)]
      have : hd = (hd.1, (none : Option GoError)) := by
        cases hd; simp_all
      rw [this]
      exact ih hd.1 h2

/-! ## Claim theorems: coalescer -/

/-- **C2** (code bug): on the miss path with `state = idle` and the caller's
cancellation already fired, `run` returns the cancellation error without
transitioning to running or spawning a pump — but, contrary to the claim, it
does NOT release the lock: evaluated on a fresh uncached coalescer with a
cancelled context, the locked prefix ends with `spawned = false`, the state
unchanged, and `unlocked = false` (no unlock runs on that return path), so
every subsequent operation on the same coalescer blocks on the mutex. -/
theorem runLocked_miss_cancelled_lock_leak :
    runLocked (mkCoalescer Nat 0 0) 5 true false 1 =
      ⟨mkCoalescer Nat 0 0, .ret 0 (some .ctxCanceled), false, false⟩ := by
  rfl

/-- **C3** (code bug): in the wait phase, the waiter-fires case returns the
delivered pair and the timeout cases (timer, and the nonblocking poll at
`timeout = 0`) return `ErrRunnerTimedout` after calling `abort` — but,
contrary to the claim, the cancellation cases return the cancellation error
WITHOUT calling `abort(gen, slot)` in any of the three timeout regimes. -/
theorem runWait_cancel_skips_abort :
    runWait (T := Nat) (-1) .ctxFired = ⟨0, some .ctxCanceled, false⟩ ∧
    runWait (T := Nat) 7 .ctxFired = ⟨0, some .ctxCanceled, false⟩ ∧
    runWait (T := Nat) 0 .ctxFired = ⟨0, some .ctxCanceled, false⟩ ∧
    runWait (T := Nat) 7 .timedOut = ⟨0, some .runnerTimedout, true⟩ ∧
    runWait (T := Nat) 0 .timedOut = ⟨0, some .runnerTimedout, true⟩ ∧
    runWait (T := Nat) (-1) (.delivered 42 none) = ⟨42, none, false⟩ := by
  refine ⟨rfl, rfl, rfl, rfl, rfl, rfl⟩

/-- **C4** (code bug): `abort` removes the caller's slot when it is the sole
waiter, the last waiter, or at any interior position — but, contrary to the
claim (and to `TestAbort`/"the first", which expects the list to shrink to
3), a matching slot at index 0 of a multi-waiter list is NOT removed, because
the linear-scan fallback guards the removal with `n > 0`: on the waiter list
`[10, 11, 12, 13]` with matching generation, `abort(gen, 10)` leaves the
list unchanged and does not close the slot, while `abort(gen, 13)` and
`abort(gen, 11)` do remove their slots. -/
theorem abortLocked_first_waiter_not_removed :
    abortLocked abortFirstFixture 2 10 = (abortFirstFixture, false) ∧
    abortLocked abortFirstFixture 2 13 =
      ({ abortFirstFixture with l := [10, 11, 12] }, true) ∧
    abortLocked abortFirstFixture 2 11 =
      ({ abortFirstFixture with l := [10, 13, 12] }, true) := by
  refine ⟨rfl, rfl, rfl⟩

/-- **C5**: on the grace-window path (`bypassCache = false`, `grace > 0`,
cached timestamp within `ttl + grace`, not served by the fresh-cache step):
if running, `run` returns the cached value and nil without starting anything;
if idle with the cancellation not fired, it transitions to running, bumps
`gen`, spawns exactly one refresh pump and returns the cached value and nil
(state is running on exit); if idle with the cancellation fired, it returns
the cancellation error without starting a refresh. -/
theorem runLocked_grace_window {T : Type} [Inhabited T] (qr : CoalescerState T)
    (now : Int) (ctxDone : Bool) (slot : Nat)
    (hg : 0 < qr.grace) (hin : now - qr.added ≤ qr.ttl + qr.grace)
    (hfresh : ¬ (0 < qr.ttl ∧ now - qr.added ≤ qr.ttl)) :
    (qr.state = true →
      runLocked qr now ctxDone false slot =
        ⟨qr, .ret qr.result none, false, true⟩) ∧
    (qr.state = false → ctxDone = false →
      runLocked qr now ctxDone false slot =
        ⟨{ qr with state := true, gen := qr.gen + 1 },
          .ret qr.result none, true, true⟩) ∧
    (qr.state = false → ctxDone = true →
      runLocked qr now ctxDone false slot =
        ⟨qr, .ret default (some .ctxCanceled), false, true⟩) := by
  have hA : ¬ ((false = false) ∧ 0 < qr.ttl ∧ now - qr.added ≤ qr.ttl) := by
    simpa using hfresh
  unfold runLocked
  rw [if_neg hA, if_pos ⟨rfl, hg, hin⟩]
  refine ⟨fun hs => by simp [hs], fun hs hc => by simp [hs, hc],
    fun hs hc => by simp [hs, hc]⟩

/-- Witness for the grace-window theorem: an idle coalescer with `grace=10`,
a value `42` cached at time `0`, queried at time `5` with no cancellation:
it spawns a refresh and returns the cached `42` with a nil error. -/
theorem runLocked_grace_window_witness :
    runLocked { l := [], state := false, gen := 0, result := (42 : Nat),
                ttl := 0, grace := 10, added := 0 } 5 false false 1 =
      ⟨{ l := [], state := true, gen := 1, result := 42, ttl := 0,
         grace := 10, added := 0 }, .ret 42 none, true, true⟩ :=
  (runLocked_grace_window _ 5 false 1 (by decide) (by decide)
    (by decide)).2.1 rfl rfl

/-- **C6**: in every reachable interleaving of the coalescer's operations,
the live-pump count is at most one and equals one exactly in the running
state; moreover no step taken from a running state invokes the user `fn`
again, and every step that enters the running state invokes it exactly
once — so during an interval in which the state is continuously running,
`fn` is invoked exactly once, however many callers arrive. -/
theorem coalescer_single_flight {T : Type} [Inhabited T] (ttl grace : Int)
    (s s' : CoalescerSys T) (hs : CoalescerReach ttl grace s) :
    (s.pumps ≤ 1 ∧ (s.c.state = true ↔ s.pumps = 1)) ∧
    (CoalescerStep s s' →
      (s.c.state = true → s'.fnCalls = s.fnCalls) ∧
      (s.c.state = false → s'.c.state = true →
        s'.fnCalls = s.fnCalls + 1)) := by
  have hinv := coalescerReach_inv hs
  unfold coalescerInv at hinv
  constructor
  · cases hst : s.c.state <;> rw [hst] at hinv <;> simp at hinv <;>
      simp [hinv, hst]
  · intro hstep
    cases hstep with
    | opRun now ctxDone noCache slot h =>
      have hspawn := runLocked_spawn_state s.c now ctxDone noCache slot
      constructor
      · intro hrun
        by_cases hsp : (runLocked s.c now ctxDone noCache slot).spawned
        · have := (hspawn.1 hsp).1
          rw [hrun] at this
          simp at this
        · simp [hsp]
      · intro hidle hrun'
        by_cases hsp : (runLocked s.c now ctxDone noCache slot).spawned
        · simp [hsp]
        · exfalso
          have hst := hspawn.2 (by simpa using hsp)
          simp only at hrun'
          rw [hst, hidle] at hrun'
          simp at hrun'
    | pumpFinish v e now h hp =>
      refine ⟨fun _ => rfl, fun hidle hrun' => ?_⟩
      simp only [pumpLocked] at hrun'
      simp at hrun'
    | opAbort gen r h =>
      refine ⟨fun _ => rfl, fun hidle hrun' => ?_⟩
      have := (abortLocked_preserves s.c gen r).2.2
      simp only at hrun'
      rw [this, hidle] at hrun'
      simp at hrun'
    | opFlush h =>
      refine ⟨fun _ => rfl, fun hidle hrun' => ?_⟩
      have := flushLocked_preserves_state s.c
      simp only at hrun'
      rw [this, hidle] at hrun'
      simp at hrun'

/-- Witness for the single-flight theorem at the freshly constructed
coalescer: zero pumps, not running. -/
theorem coalescer_single_flight_witness :
    ({ c := mkCoalescer Nat 0 0, locked := false, pumps := 0,
       fnCalls := 0 } : CoalescerSys Nat).pumps ≤ 1 ∧
    (({ c := mkCoalescer Nat 0 0, locked := false, pumps := 0,
        fnCalls := 0 } : CoalescerSys Nat).c.state = true ↔
      ({ c := mkCoalescer Nat 0 0, locked := false, pumps := 0,
         fnCalls := 0 } : CoalescerSys Nat).pumps = 1) :=
  (coalescer_single_flight 0 0 _
    { c := mkCoalescer Nat 0 0, locked := false, pumps := 0, fnCalls := 0 }
    CoalescerReach.init).1

/-- **C7**: the cached pair `(result, added)` is written only by a pump whose
`fn` returned a nil error while caching is enabled: a pump with a non-nil
error leaves both unchanged while still fanning the `(value, error)` pair out
to every registered waiter (and clearing the list and stopping); a pump with
caching disabled leaves both unchanged; a successful pump with caching
enabled stores the value and the current timestamp; and neither the locked
prefix of `run` nor `abort` ever modifies `result` or `added`. -/
theorem pump_cache_policy {T : Type} [Inhabited T] (qr : CoalescerState T)
    (v : T) (e : Option GoError) (now now' : Int) (ctxDone noCache : Bool)
    (slot g r : Nat) :
    (e ≠ none →
      (pumpLocked qr v e now).st.result = qr.result ∧
      (pumpLocked qr v e now).st.added = qr.added ∧
      (pumpLocked qr v e now).delivered = qr.l.map (fun s => (s, v, e)) ∧
      (pumpLocked qr v e now).st.l = [] ∧
      (pumpLocked qr v e now).st.state = false) ∧
    (¬ (0 < qr.ttl ∨ 0 < qr.grace) →
      (pumpLocked qr v e now).st.result = qr.result ∧
      (pumpLocked qr v e now).st.added = qr.added) ∧
    (e = none → (0 < qr.ttl ∨ 0 < qr.grace) →
      (pumpLocked qr v e now).st.result = v ∧
      (pumpLocked qr v e now).st.added = now) ∧
    ((runLocked qr now' ctxDone noCache slot).st.result = qr.result ∧
      (runLocked qr now' ctxDone noCache slot).st.added = qr.added) ∧
    ((abortLocked qr g r).1.result = qr.result ∧
      (abortLocked qr g r).1.added = qr.added) := by
  refine ⟨?_, ?_, ?_, runLocked_preserves_cache qr now' ctxDone noCache slot,
    (abortLocked_preserves qr g r).1, (abortLocked_preserves qr g r).2.1⟩
  · intro he
    simp [pumpLocked, he]
  · intro hc
    simp [pumpLocked, hc]
  · intro he hc
    simp [pumpLocked, he, hc]

/-- Witness for the cache policy: a failed refresh on a running cached
coalescer keeps the cached `5`/timestamp `3`, fans the error out to the one
waiter, clears the list and stops. -/
theorem pump_cache_policy_witness :
    (pumpLocked pumpFixture 9 (some (GoError.user 0)) 50).st.result = 5 ∧
    (pumpLocked pumpFixture 9 (some (GoError.user 0)) 50).st.added = 3 ∧
    (pumpLocked pumpFixture 9 (some (GoError.user 0)) 50).delivered =
      pumpFixture.l.map (fun s => (s, 9, some (GoError.user 0))) ∧
    (pumpLocked pumpFixture 9 (some (GoError.user 0)) 50).st.l = [] ∧
    (pumpLocked pumpFixture 9 (some (GoError.user 0)) 50).st.state = false :=
  (pump_cache_policy pumpFixture 9 (some (GoError.user 0)) 50 0 false false
    0 0 0).1 (by simp)

/-- **C10**: every error the coalescer's `run` synthesizes itself comes with
the zero value of `T`: a locked-prefix return carrying an error is always
`(zero, cancellation)` — even when a valid cached value exists, as on the
grace path entered with a fired cancellation — and in the wait phase the
cancellation event yields `(zero, cancellation)` and the timeout event
yields `(zero, RunnerTimedOut)`. -/
theorem run_error_value_zero {T : Type} [Inhabited T] :
    (∀ (qr : CoalescerState T) (now : Int) (ctxDone noCache : Bool)
        (slot : Nat) (v : T) (e : GoError),
      (runLocked qr now ctxDone noCache slot).out = .ret v (some e) →
      v = default ∧ e = .ctxCanceled) ∧
    (∀ (timeout : Int) (ev : WaitEvent T),
      (ev = .ctxFired → (runWait timeout ev).value = default ∧
        (runWait timeout ev).error = some .ctxCanceled) ∧
      (ev = .timedOut → (runWait timeout ev).value = default ∧
        (runWait timeout ev).error = some .runnerTimedout)) := by
  constructor
  · intro qr now ctxDone noCache slot v e hout
    unfold runLocked at hout
    split at hout
    · simp at hout
    · split at hout
      · split at hout
        · simp at hout
        · split at hout
          · simp at hout
            exact ⟨hout.1.symm, hout.2.symm⟩
          · simp at hout
      · split at hout
        · simp at hout
        · split at hout
          · simp at hout
            exact ⟨hout.1.symm, hout.2.symm⟩
          · simp at hout
  · intro timeout ev
    by_cases h1 : 0 < timeout
    · refine ⟨?_, ?_⟩ <;> rintro rfl <;> simp [runWait, h1]
    · by_cases h2 : timeout = 0
      · refine ⟨?_, ?_⟩ <;> rintro rfl <;> simp [runWait, h1, h2]
      · refine ⟨?_, ?_⟩ <;> rintro rfl <;> simp [runWait, h1, h2]

/-- Witness for the zero-value theorem: the nonblocking poll that times out
returns `(0, RunnerTimedOut)`. -/
theorem run_error_value_zero_witness :
    (runWait (T := Nat) 0 WaitEvent.timedOut).value = 0 ∧
    (runWait (T := Nat) 0 WaitEvent.timedOut).error =
      some GoError.runnerTimedout :=
  ((run_error_value_zero (T := Nat)).2 0 .timedOut).2 rfl

/-! ## Claim theorems: timed mutex -/

theorem mutexReach_inv {m : TimedMutex} (h : MutexReach m) :
    ∃ ch : TokenChan, m.c = some ch ∧ ch.tokens ≤ ch.cap ∧ 1 ≤ ch.cap := by
  induction h with
  | init limit =>
    by_cases hl : limit ≤ 0
    · exact ⟨⟨1, 1⟩, by simp [NewVariableTimedMutex, hl],
        show (1 : Nat) ≤ 1 from le_refl 1, show (1 : Nat) ≤ 1 from le_refl 1⟩
    · exact ⟨⟨limit.toNat, limit.toNat⟩, by simp [NewVariableTimedMutex, hl],
        show limit.toNat ≤ limit.toNat from le_refl _,
        show 1 ≤ limit.toNat from by omega⟩
  | lockStep t _ heq ih =>
    obtain ⟨ch, hc, hle, hcap⟩ := ih
    unfold internalLock at heq
    rw [hc] at heq
    simp only at heq
    split at heq
    · split at heq
      · cases heq
        exact ⟨_, rfl, le_trans (Nat.sub_le _ _) hle, hcap⟩
      · simp at heq
    · split at heq
      · split at heq
        · cases heq
          exact ⟨_, rfl, le_trans (Nat.sub_le _ _) hle, hcap⟩
        · simp at heq
      · split at heq
        · cases heq
          exact ⟨_, rfl, le_trans (Nat.sub_le _ _) hle, hcap⟩
        · simp at heq
  | ctxLockStep ev _ heq ih =>
    obtain ⟨ch, hc, hle, hcap⟩ := ih
    unfold LockWithContext at heq
    rw [hc] at heq
    simp only at heq
    split at heq
    · simp at heq
    · split at heq
      · cases heq
        exact ⟨_, rfl, le_trans (Nat.sub_le _ _) hle, hcap⟩
      · simp at heq
  | unlockStep _ heq ih =>
    obtain ⟨ch, hc, hle, hcap⟩ := ih
    unfold Unlock at heq
    rw [hc] at heq
    simp only at heq
    split at heq
    · rename_i hlt
      cases heq
      exact ⟨_, rfl, hlt, hcap⟩
    · simp at heq

/-- **C9**: programmer errors on a `TimedMutex` fail loudly: `Unlock` with
the token count already at capacity panics instead of adding a token; the
token count never exceeds the limit (and the channel stays allocated) in any
state reachable by acquisitions and releases; and every operation — `Lock`,
`TryLock`, `LockTimeout`, `LockWithContext`, `Unlock` — on the zero-value
mutex, whose channel was never allocated, panics. -/
theorem timedMutex_fail_loudly :
    (∀ (m : TimedMutex) (ch : TokenChan), m.c = some ch →
      ch.tokens = ch.cap →
      Unlock m = .panicked "TimedMutex unlock of unlocked mutex") ∧
    (∀ m : TimedMutex, MutexReach m →
      ∃ ch : TokenChan, m.c = some ch ∧ ch.tokens ≤ ch.cap ∧ 1 ≤ ch.cap) ∧
    (∀ t : Int,
      internalLock zeroTimedMutex t = .panicked "Uninitialized TimedMutex") ∧
    (∀ t : Int,
      LockTimeout zeroTimedMutex t = .panicked "Uninitialized TimedMutex") ∧
    Lock zeroTimedMutex = .panicked "Uninitialized TimedMutex" ∧
    TryLock zeroTimedMutex = .panicked "Uninitialized TimedMutex" ∧
    (∀ ev : Bool,
      LockWithContext zeroTimedMutex ev = .panicked "Uninitialized TimedMutex") ∧
    Unlock zeroTimedMutex = .panicked "Uninitialized TimedMutex" := by
  refine ⟨?_, fun m h => mutexReach_inv h, fun t => rfl, fun t => rfl, rfl,
    rfl, fun ev => rfl, rfl⟩
  intro m ch hc heq
  unfold Unlock
  rw [hc]
  simp [heq]

/-- Witness for the mutex theorem: over-release of a fully released
2-capacity mutex panics, and a freshly constructed 3-capacity mutex
satisfies the token bound. -/
theorem timedMutex_fail_loudly_witness :
    Unlock ⟨some ⟨2, 2⟩⟩ = .panicked "TimedMutex unlock of unlocked mutex" ∧
    (∃ ch : TokenChan, (NewVariableTimedMutex 3).c = some ch ∧
      ch.tokens ≤ ch.cap ∧ 1 ≤ ch.cap) :=
  ⟨timedMutex_fail_loudly.1 ⟨some ⟨2, 2⟩⟩ ⟨2, 2⟩ rfl rfl,
    timedMutex_fail_loudly.2.1 _ (MutexReach.init 3)⟩

/-! ## Claim theorems: search reducer -/

/-- **C8**: over any observed result stream of an uncancelled
`Search`/`SearchUnordered` call: if the first result carrying an error
carries `ErrSearchSuccess`, the reducer returns that result's value with a
nil error; if the stream is exhausted with no error, it returns
`ErrSearchFailure`; and any other first error is returned to the caller
verbatim, with its accompanying value. -/
theorem search_sentinels {R : Type} (zero : R)
    (rs : List (R × Option GoError)) :
    (∀ v : R, rs.find? (fun r => r.2.isSome) = some (v, some .searchSuccess) →
      searchReduce zero rs = (v, none)) ∧
    (rs.find? (fun r => r.2.isSome) = none →
      (searchReduce zero rs).2 = some .searchFailure) ∧
    (∀ (v : R) (e : GoError),
      rs.find? (fun r => r.2.isSome) = some (v, some e) →
      e ≠ .searchSuccess → searchReduce zero rs = (v, some e)) := by
  refine ⟨fun v hf => ?_, fun hf => ?_, fun v e hf hne => ?_⟩
  · have := searchLoop_find zero rs _ hf
    simp [searchReduce, this]
  · have := searchLoop_all_none zero rs hf
    simp [searchReduce, this]
  · have := searchLoop_find zero rs _ hf
    simp [searchReduce, this, hne]

/-- Witness for the search theorem: a stream whose first error is the
success sentinel yields `(105, nil)`; an error-free stream yields the
failure sentinel; a stream whose first error is a user error returns it
verbatim. -/
theorem search_sentinels_witness :
    searchReduce (0 : Nat)
      [(1, none), (105, some .searchSuccess), (2, none)] = (105, none) ∧
    (searchReduce (0 : Nat) [(1, none), (2, none)]).2 =
      some GoError.searchFailure ∧
    searchReduce (0 : Nat) [(1, none), (3, some (GoError.user 7))] =
      (3, some (GoError.user 7)) :=
  ⟨(search_sentinels 0 _).1 105 rfl,
    (search_sentinels 0 _).2.1 rfl,
    (search_sentinels 0 _).2.2 3 (GoError.user 7) rfl (by decide)⟩

/-! ## Claim C1: the ordered map emits every input's image in input order -/

theorem poolSizeOf_pos (qlen : Int) : 1 ≤ poolSizeOf qlen := by
  unfold poolSizeOf defaultPoolSize
  split
  · omega
  · omega

theorem eq_of_mod_eq_of_window {P a b : Nat} (hle : b ≤ a)
    (hlt : a < b + P) (hmod : a % P = b % P) : a = b := by
  have hdvd : P ∣ a - b := (Nat.modEq_iff_dvd' hle).mp hmod.symm
  have hz : a - b = 0 := Nat.eq_zero_of_dvd_of_lt hdvd (by omega)
  omega

theorem drain_eq_step (P : Nat) (s : MapIState) (m : Nat)
    (h : s.buf[s.cidx % P]? = some (some m)) :
    drain P s = drain P { s with buf := s.buf.set (s.cidx % P) none,
                                 cidx := s.cidx + 1,
                                 out := s.out ++ [m] } := by
  conv_lhs => rw [drain]
  split
  · rename_i m' h'
    rw [h] at h'
    simp only [Option.some.injEq] at h'
    rw [h']
  · rename_i h'
    rw [h] at h'
    simp at h'
  · rename_i h'
    rw [h] at h'
    simp at h'

theorem drain_eq_stop (P : Nat) (s : MapIState)
    (h : s.buf[s.cidx % P]? = some none) : drain P s = s := by
  conv_lhs => rw [drain]
  split
  · rename_i m' h'
    rw [h] at h'
    simp at h'
  · rfl
  · rfl

theorem topoff_eq_step (P K : Nat) (s : MapIState)
    (h : s.idx < K ∧ s.idx < s.cidx + P) :
    topoff P K s =
      topoff P K { s with pending := s.pending ++ [s.idx],
                          idx := s.idx + 1 } := by
  conv_lhs => rw [topoff]
  rw [dif_pos h]

theorem topoff_eq_stop (P K : Nat) (s : MapIState)
    (h : ¬ (s.idx < K ∧ s.idx < s.cidx + P)) : topoff P K s = s := by
  conv_lhs => rw [topoff]
  rw [dif_neg h]

theorem eq_of_mod_eq_of_both_in_window {P c a b : Nat}
    (ha1 : c ≤ a) (ha2 : a < c + P) (hb1 : c ≤ b) (hb2 : b < c + P)
    (hmod : a % P = b % P) : a = b := by
  rcases le_total b a with h | h
  · exact eq_of_mod_eq_of_window h (by omega) hmod
  · exact (eq_of_mod_eq_of_window h (by omega) hmod.symm).symm

theorem drain_spec (P K : Nat) (hP : 1 ≤ P) (s : MapIState)
    (hpre : MapIPre P K s) :
    MapIPre P K (drain P s) ∧
    (drain P s).buf[(drain P s).cidx % P]? = some none ∧
    (drain P s).idx = s.idx ∧ (drain P s).pending = s.pending := by
  induction s using drain.induct P with
  | case1 x m hx ih =>
    obtain ⟨hj, hcm, hmidx, hmp⟩ := hpre.buf_sound (x.cidx % P) m hx
    have hm : m = x.cidx := by
      refine eq_of_mod_eq_of_window hcm ?_ hj.symm
      have := hpre.idx_win
      omega
    subst hm
    rw [drain_eq_step P x x.cidx hx]
    have hcidx_lt : x.cidx < x.idx := hmidx
    refine ih ⟨?_, ?_, ?_, ?_, ?_, ?_, ?_, ?_, ?_⟩
    · simpa using hpre.buflen
    · simp only [hpre.out_eq]
      exact (List.range_succ x.cidx).symm
    · exact hcidx_lt
    · exact hpre.idx_le
    · dsimp only
      have := hpre.idx_win
      omega
    · intro j m' hjm
      dsimp only at hjm ⊢
      rw [List.getElem?_set] at hjm
      split at hjm
      · split at hjm
        · simp at hjm
        · simp at hjm
      · rename_i hne
        obtain ⟨h1, h2, h3, h4⟩ := hpre.buf_sound j m' hjm
        refine ⟨h1, ?_, h3, h4⟩
        rcases Nat.eq_or_lt_of_le h2 with heq | hlt
        · exact absurd (by rw [h1, ← heq]) hne
        · omega
    · intro m' hm'
      dsimp only at hm' ⊢
      obtain ⟨h1, h2⟩ := hpre.pend_sound m' hm'
      refine ⟨?_, h2⟩
      rcases Nat.eq_or_lt_of_le h1 with heq | hlt
      · exact absurd (heq ▸ hm') hmp
      · omega
    · intro m' h1 h2
      dsimp only at h1 h2 ⊢
      rcases hpre.cover m' (by omega) h2 with hbuf | hpend
      · left
        rw [List.getElem?_set]
        split
        · rename_i hsl
          exfalso
          have hme : m' = x.cidx := by
            refine eq_of_mod_eq_of_window (by omega) ?_ hsl.symm
            have := hpre.idx_win
            omega
          omega
        · exact hbuf
      · right
        exact hpend
    · exact hpre.pend_nodup
  | case2 x hx =>
    rw [drain_eq_stop P x hx]
    exact ⟨hpre, hx, rfl, rfl⟩
  | case3 x hx =>
    exfalso
    have hlt : x.cidx % P < x.buf.length := by
      rw [hpre.buflen]
      exact Nat.mod_lt _ (by omega)
    rw [List.getElem?_eq_none_iff] at hx
    omega

theorem topoff_spec (P K : Nat) (s : MapIState)
    (hpre : MapIPre P K s)
    (hslot : s.buf[s.cidx % P]? = some none) :
    MapIInv P K (topoff P K s) ∧
    (topoff P K s).cidx = s.cidx ∧ (topoff P K s).out = s.out ∧
    (topoff P K s).buf = s.buf ∧
    (topoff P K s).pending.length + s.idx =
      s.pending.length + (topoff P K s).idx := by
  induction s using topoff.induct P K with
  | case1 x hx ih =>
    rw [topoff_eq_step P K x hx]
    have hpre' : MapIPre P K
        { x with pending := x.pending ++ [x.idx], idx := x.idx + 1 } := by
      refine ⟨hpre.buflen, hpre.out_eq, ?_, ?_, ?_, ?_, ?_, ?_, ?_⟩
      · dsimp only
        have := hpre.cidx_le
        omega
      · dsimp only
        omega
      · dsimp only
        omega
      · intro j m' hjm
        dsimp only at hjm ⊢
        obtain ⟨h1, h2, h3, h4⟩ := hpre.buf_sound j m' hjm
        refine ⟨h1, h2, by omega, ?_⟩
        simp only [List.mem_append, List.mem_singleton]
        push_neg
        exact ⟨h4, by omega⟩
      · intro m' hm'
        dsimp only at hm' ⊢
        rcases List.mem_append.mp hm' with hold | hnew
        · obtain ⟨h1, h2⟩ := hpre.pend_sound m' hold
          exact ⟨h1, by omega⟩
        · have : m' = x.idx := by simpa using hnew
          subst this
          exact ⟨hpre.cidx_le, by omega⟩
      · intro m' h1 h2
        dsimp only at h1 h2 ⊢
        by_cases hlt : m' < x.idx
        · rcases hpre.cover m' h1 hlt with hbuf | hpend
          · exact Or.inl hbuf
          · exact Or.inr (List.mem_append_left _ hpend)
        · have : m' = x.idx := by omega
          subst this
          exact Or.inr (List.mem_append_right _ (by simp))
      · dsimp only
        rw [List.nodup_append]
        refine ⟨hpre.pend_nodup, List.nodup_singleton _, ?_⟩
        intro a ha hb
        have : a = x.idx := by simpa using hb
        subst this
        exact absurd (hpre.pend_sound _ ha).2 (lt_irrefl _)
    obtain ⟨h1, h2, h3, h4, h5⟩ := ih hpre' hslot
    refine ⟨h1, h2, h3, h4, ?_⟩
    dsimp only at h5
    simp only [List.length_append, List.length_singleton] at h5
    omega
  | case2 x hx =>
    rw [topoff_eq_stop P K x hx]
    have h1 := hpre.idx_le
    have h2 := hpre.idx_win
    exact ⟨⟨hpre, by omega, hslot⟩, rfl, rfl, rfl, by omega⟩

theorem stepArrival_spec (P K : Nat) (hP : 1 ≤ P) (s s' : MapIState)
    (a : Nat) (hinv : MapIInv P K s)
    (hstep : stepArrival P K s a = some s') :
    MapIInv P K s' ∧
    s'.pending.length + 1 + s.idx = s.pending.length + s'.idx := by
  unfold stepArrival at hstep
  split at hstep
  case isFalse => simp at hstep
  case isTrue hmem =>
  simp only [Option.some.injEq] at hstep
  subst hstep
  have hlen0 : 0 < s.pending.length :=
    List.length_pos.mpr (List.ne_nil_of_mem hmem)
  have herase : (s.pending.erase a).length = s.pending.length - 1 :=
    List.length_erase_of_mem hmem
  by_cases hac : a = s.cidx
  · subst hac
    have hmerge : arrivalMerge P
        { s with pending := s.pending.erase s.cidx } s.cidx
        = { s with pending := s.pending.erase s.cidx,
                   cidx := s.cidx + 1,
                   out := s.out ++ [s.cidx] } := by
      unfold arrivalMerge
      dsimp only
      rw [if_pos rfl]
    rw [hmerge]
    have hcidx_lt : s.cidx < s.idx := (hinv.pre.pend_sound _ hmem).2
    have hpre2 : MapIPre P K
        { s with pending := s.pending.erase s.cidx,
                 cidx := s.cidx + 1,
                 out := s.out ++ [s.cidx] } := by
      refine ⟨hinv.pre.buflen, ?_, ?_, hinv.pre.idx_le, ?_, ?_, ?_, ?_, ?_⟩
      · dsimp only
        rw [hinv.pre.out_eq]
        exact (List.range_succ s.cidx).symm
      · dsimp only
        omega
      · dsimp only
        have := hinv.pre.idx_win
        omega
      · intro j m' hjm
        dsimp only at hjm ⊢
        obtain ⟨h1, h2, h3, h4⟩ := hinv.pre.buf_sound j m' hjm
        refine ⟨h1, ?_, h3, fun hc => h4 (List.mem_of_mem_erase hc)⟩
        rcases Nat.eq_or_lt_of_le h2 with heq | hlt
        · exfalso
          rw [h1, ← heq] at hjm
          rw [hinv.slot_empty] at hjm
          simp at hjm
        · omega
      · intro m' hm'
        dsimp only at hm' ⊢
        obtain ⟨hne, hmem'⟩ :=
          (List.Nodup.mem_erase_iff hinv.pre.pend_nodup).mp hm'
        obtain ⟨hl, hr⟩ := hinv.pre.pend_sound m' hmem'
        exact ⟨by omega, hr⟩
      · intro m' h1 h2
        dsimp only at h1 h2 ⊢
        rcases hinv.pre.cover m' (by omega) h2 with hbuf | hpend
        · exact Or.inl hbuf
        · exact Or.inr
            ((List.Nodup.mem_erase_iff hinv.pre.pend_nodup).mpr
              ⟨by omega, hpend⟩)
      · dsimp only
        exact hinv.pre.pend_nodup.erase _
    obtain ⟨hd1, hd2, hd3, hd4⟩ := drain_spec P K hP _ hpre2
    obtain ⟨ht1, ht2, ht3, ht4, ht5⟩ := topoff_spec P K _ hd1 hd2
    refine ⟨ht1, ?_⟩
    rw [hd3, hd4] at ht5
    dsimp only at ht5 ⊢
    rw [herase] at ht5
    omega
  · have hmerge : arrivalMerge P { s with pending := s.pending.erase a } a
        = { s with pending := s.pending.erase a,
                   buf := s.buf.set (a % P) (some a) } := by
      unfold arrivalMerge
      dsimp only
      rw [if_neg hac]
    rw [hmerge]
    obtain ⟨ha1, ha2⟩ := hinv.pre.pend_sound a hmem
    have hawin : a < s.cidx + P := lt_of_lt_of_le ha2 hinv.pre.idx_win
    have hbound : a % P < s.buf.length := by
      rw [hinv.pre.buflen]
      exact Nat.mod_lt _ (by omega)
    have hpre2 : MapIPre P K
        { s with pending := s.pending.erase a,
                 buf := s.buf.set (a % P) (some a) } := by
      refine ⟨?_, hinv.pre.out_eq, hinv.pre.cidx_le, hinv.pre.idx_le,
        hinv.pre.idx_win, ?_, ?_, ?_, ?_⟩
      · dsimp only
        rw [List.length_set]
        exact hinv.pre.buflen
      · intro j m' hjm
        dsimp only at hjm ⊢
        by_cases hja : a % P = j
        · rw [← hja, List.getElem?_set_self hbound] at hjm
          simp only [Option.some.injEq] at hjm
          subst hjm
          refine ⟨hja.symm, ha1, ha2, ?_⟩
          exact fun hc =>
            ((List.Nodup.mem_erase_iff hinv.pre.pend_nodup).mp hc).1 rfl
        · rw [List.getElem?_set_ne hja] at hjm
          obtain ⟨h1, h2, h3, h4⟩ := hinv.pre.buf_sound j m' hjm
          exact ⟨h1, h2, h3, fun hc => h4 (List.mem_of_mem_erase hc)⟩
      · intro m' hm'
        dsimp only at hm' ⊢
        exact hinv.pre.pend_sound m' (List.mem_of_mem_erase hm')
      · intro m' h1 h2
        dsimp only at h1 h2 ⊢
        by_cases hma : m' = a
        · subst hma
          exact Or.inl (List.getElem?_set_self hbound)
        · rcases hinv.pre.cover m' h1 h2 with hbuf | hpend
          · by_cases hmod : a % P = m' % P
            · exfalso
              have := hinv.pre.idx_win
              have : m' = a := eq_of_mod_eq_of_both_in_window
                h1 (by omega) ha1 hawin hmod.symm
              exact hma this
            · exact Or.inl (by rw [List.getElem?_set_ne hmod]; exact hbuf)
          · exact Or.inr
              ((List.Nodup.mem_erase_iff hinv.pre.pend_nodup).mpr
                ⟨hma, hpend⟩)
      · dsimp only
        exact hinv.pre.pend_nodup.erase _
    obtain ⟨hd1, hd2, hd3, hd4⟩ := drain_spec P K hP _ hpre2
    obtain ⟨ht1, ht2, ht3, ht4, ht5⟩ := topoff_spec P K _ hd1 hd2
    refine ⟨ht1, ?_⟩
    rw [hd3, hd4] at ht5
    dsimp only at ht5 ⊢
    rw [herase] at ht5
    omega

theorem initState_inv (P K : Nat) (hP : 1 ≤ P) :
    MapIInv P K (initState P K) := by
  unfold initState
  refine ⟨⟨?_, rfl, ?_, ?_, ?_, ?_, ?_, ?_, ?_⟩, ?_, ?_⟩ <;> dsimp only
  · exact List.length_replicate P none
  · exact Nat.zero_le _
  · exact min_le_right _ _
  · omega
  · intro j m hjm
    rw [List.getElem?_replicate] at hjm
    split at hjm <;> simp at hjm
  · intro m hm
    exact ⟨Nat.zero_le _, List.mem_range.mp hm⟩
  · intro m h1 h2
    exact Or.inr (List.mem_range.mpr h2)
  · exact List.nodup_range _
  · omega
  · rw [List.getElem?_replicate]
    rw [if_pos (Nat.mod_lt _ (by omega))]

theorem runFold_inv (P K : Nat) (hP : 1 ≤ P) (arr : List Nat) :
    ∀ s s' : MapIState, MapIInv P K s →
    List.foldlM (fun t a => stepArrival P K t a) s arr = some s' →
    MapIInv P K s' ∧
    s'.pending.length + arr.length + s.idx =
      s.pending.length + s'.idx := by
  induction arr with
  | nil =>
    intro s s' hinv h
    simp only [List.foldlM_nil] at h
    cases h
    exact ⟨hinv, by simp⟩
  | cons a t ih =>
    intro s s' hinv h
    rw [List.foldlM_cons] at h
    have hex : ∃ s1, stepArrival P K s a = some s1 ∧
        List.foldlM (fun t a => stepArrival P K t a) s1 t = some s' := by
      cases hsa : stepArrival P K s a with
      | none => rw [hsa] at h; cases h
      | some s1 =>
        rw [hsa] at h
        exact ⟨s1, rfl, h⟩
    obtain ⟨s1, hsa, hrest⟩ := hex
    obtain ⟨hinv1, hcnt1⟩ := stepArrival_spec P K hP s s1 a hinv hsa
    obtain ⟨hinv2, hcnt2⟩ := ih s1 s' hinv1 hrest
    refine ⟨hinv2, ?_⟩
    simp only [List.length_cons]
    omega

theorem range_map_getD {I R : Type} (fn : I → R) (d : I) (args : List I) :
    (List.range args.length).map (fun m => fn (args.getD m d)) =
      args.map fn := by
  induction args with
  | nil => rfl
  | cons hd tl ih =>
    simp only [List.length_cons, List.range_succ_eq_map, List.map_cons,
      List.map_map, List.getD_cons_zero, Function.comp_def,
      Nat.succ_eq_add_one, List.getD_cons_succ]
    rw [ih]

/-- **C1**: for every pool size (`qlen`, with the ≤ 0 ⇒ 10 default), every
finite input list and every pure `fn`, a complete uncancelled, error-free
run of the ordered `mapI` collector — whatever order the worker results
arrive in — emits exactly `args.length` values, the `i`-th being
`fn args[i]`: the emitted index sequence is `0, 1, …, K-1` and the value
stream equals `args.map fn`. -/
theorem mapI_ordered {I R : Type} [Inhabited I] (fn : I → R) (args : List I)
    (qlen : Int) (arr : List Nat) (s : MapIState)
    (hlen : arr.length = args.length)
    (hrun : runMapI qlen args.length arr = some s) :
    mapIOutputs fn args s = args.map fn ∧
    (mapIOutputs fn args s).length = args.length ∧
    s.out = List.range args.length := by
  have hP : 1 ≤ poolSizeOf qlen := poolSizeOf_pos qlen
  set P := poolSizeOf qlen with hPdef
  set K := args.length with hKdef
  unfold runMapI at hrun
  obtain ⟨hinv, hcnt⟩ :=
    runFold_inv P K hP arr (initState P K) s (initState_inv P K hP) hrun
  have hinit_idx : (initState P K).idx = min P K := rfl
  have hinit_pend : (initState P K).pending.length = min P K := by
    show (List.range (min P K)).length = min P K
    exact List.length_range _
  have hidx_le : s.idx ≤ K := hinv.pre.idx_le
  have hpend0 : s.pending.length = 0 ∧ s.idx = K := by omega
  have hpendnil : s.pending = [] := List.length_eq_zero.mp hpend0.1
  have hcidx : s.cidx = K := by
    rcases Nat.lt_or_ge s.cidx K with hlt | hge
    · exfalso
      have hcov := hinv.pre.cover s.cidx (le_refl _) (by omega)
      rcases hcov with hbuf | hpend
      · rw [hinv.slot_empty] at hbuf
        exact Option.noConfusion (Option.some.inj hbuf)
      · rw [hpendnil] at hpend
        exact List.not_mem_nil _ hpend
    · have := hinv.pre.cidx_le
      omega
  have hout : s.out = List.range K := by
    rw [hinv.pre.out_eq, hcidx]
  refine ⟨?_, ?_, hout⟩
  · unfold mapIOutputs
    rw [hout]
    exact range_map_getD fn default args
  · unfold mapIOutputs
    rw [hout]
    simp

/-- Witness for the ordered-map theorem: pool size 2, inputs `[4, 5, 6]`,
`fn n = n + 10`, with the worker results arriving out of order (index 1
first): the collector still emits `[14, 15, 16]`, the images in input
order. -/
theorem mapI_ordered_witness :
    mapIOutputs (fun n => n + 10) [4, 5, 6]
        ⟨[none, none], 3, 3, [], [0, 1, 2]⟩ = [14, 15, 16] ∧
    (⟨[none, none], 3, 3, [], [0, 1, 2]⟩ : MapIState).out = List.range 3 := by
  have d1 : drain 2 (⟨[none, some 1], 1, 2, [], [0]⟩ : MapIState) =
      (⟨[none, none], 2, 2, [], [0, 1]⟩ : MapIState) :=
    (drain_eq_step 2 ⟨[none, some 1], 1, 2, [], [0]⟩ 1 rfl).trans
      (drain_eq_stop 2 ⟨[none, none], 2, 2, [], [0, 1]⟩ rfl)
  have t1 : topoff 2 3 (⟨[none, none], 2, 2, [], [0, 1]⟩ : MapIState) =
      (⟨[none, none], 2, 3, [2], [0, 1]⟩ : MapIState) :=
    (topoff_eq_step 2 3 ⟨[none, none], 2, 2, [], [0, 1]⟩ (by decide)).trans
      (topoff_eq_stop 2 3 ⟨[none, none], 2, 3, [2], [0, 1]⟩ (by decide))
  have e1 : stepArrival 2 3 (initState 2 3) 1 =
      some (⟨[none, some 1], 0, 2, [0], []⟩ : MapIState) := by
    rw [show stepArrival 2 3 (initState 2 3) 1 = some (topoff 2 3
      (drain 2 (⟨[none, some 1], 0, 2, [0], []⟩ : MapIState))) from rfl]
    rw [drain_eq_stop 2 ⟨[none, some 1], 0, 2, [0], []⟩ rfl,
      topoff_eq_stop 2 3 ⟨[none, some 1], 0, 2, [0], []⟩ (by decide)]
  have e2 : stepArrival 2 3 (⟨[none, some 1], 0, 2, [0], []⟩ : MapIState) 0 =
      some (⟨[none, none], 2, 3, [2], [0, 1]⟩ : MapIState) := by
    rw [show stepArrival 2 3 (⟨[none, some 1], 0, 2, [0], []⟩ : MapIState) 0 =
      some (topoff 2 3
        (drain 2 (⟨[none, some 1], 1, 2, [], [0]⟩ : MapIState))) from rfl]
    rw [d1, t1]
  have e3 : stepArrival 2 3 (⟨[none, none], 2, 3, [2], [0, 1]⟩ : MapIState) 2 =
      some (⟨[none, none], 3, 3, [], [0, 1, 2]⟩ : MapIState) := by
    rw [show stepArrival 2 3 (⟨[none, none], 2, 3, [2], [0, 1]⟩ : MapIState) 2 =
      some (topoff 2 3
        (drain 2 (⟨[none, none], 3, 3, [], [0, 1, 2]⟩ : MapIState))) from rfl]
    rw [drain_eq_stop 2 ⟨[none, none], 3, 3, [], [0, 1, 2]⟩ rfl,
      topoff_eq_stop 2 3 ⟨[none, none], 3, 3, [], [0, 1, 2]⟩ (by decide)]
  have hrun : runMapI 2 3 [1, 0, 2] =
      some (⟨[none, none], 3, 3, [], [0, 1, 2]⟩ : MapIState) := by
    show List.foldlM (fun s a => stepArrival 2 3 s a) (initState 2 3)
      [1, 0, 2] = _
    simp only [List.foldlM_cons, List.foldlM_nil, e1, e2, e3,
      Option.bind_eq_bind, Option.some_bind, Option.pure_def]
  obtain ⟨h1, h2, h3⟩ :=
    mapI_ordered (fun n => n + 10) [4, 5, 6] 2 [1, 0, 2] _ rfl hrun
  exact ⟨h1, h3⟩

end Goroutines
